import Mathlib

/-!
# onload: the ef10ct auxiliary-device interface and the cplane handle

Shallow embedding of

* `src/include/ci/driver/ci_ef10ct_test.h` : the event types, the
  `EFX_ALL_EVENTS` mask and the queue-set request encoding;
* `src/lib/cplane/uapi_top.c` : `ef_cp_init` and `ef_cp_fini`.

The device operations behind `struct efx_auxiliary_devops` are only declared
in the header; their behaviour is modelled from the specification further down.
-/

namespace Onload

/-! ## `<errno.h>` -/

/-- The Linux value of `EINVAL`. -/
def EINVAL : Int := 22

/-- The Linux value of `ENOMEM`. -/
def ENOMEM : Int := 12

/-! ## `ci_ef10ct_test.h` : events -/

/-- The C enumeration `enum efx_event_type`. -/
inductive efx_event_type
  | EFX_EVENT_IN_RESET_DOWN
  | EFX_EVENT_IN_RESET_UP
  | EFX_EVENT_LINK_CHANGE
  | EFX_EVENT_MCDI
  deriving DecidableEq, Repr

/-- The integer value C gives each enumerator (0, 1, 2, ... in declaration order). -/
def efx_event_type.val : efx_event_type → Nat
  | .EFX_EVENT_IN_RESET_DOWN => 0
  | .EFX_EVENT_IN_RESET_UP => 1
  | .EFX_EVENT_LINK_CHANGE => 2
  | .EFX_EVENT_MCDI => 3

/-- Modelled from the spec: the `BIT` macro is used by the header but defined
outside `src/`. The subscription mask is a bitmap of `enum efx_event_type`, so
`BIT(nr)` is the `unsigned long` with only bit `nr` set, `1UL << nr`. -/
def BIT (nr : Nat) : Nat := (1 <<< nr) % 2 ^ 64

/-- The macro `EFX_ALL_EVENTS`. -/
def EFX_ALL_EVENTS : Nat :=
  BIT efx_event_type.EFX_EVENT_IN_RESET_DOWN.val |||
  BIT efx_event_type.EFX_EVENT_IN_RESET_UP.val |||
  BIT efx_event_type.EFX_EVENT_LINK_CHANGE.val |||
  BIT efx_event_type.EFX_EVENT_MCDI.val

/-- The C structure `struct efx_auxiliary_event`; `value` is a `uint64_t`. -/
structure efx_auxiliary_event where
  type : efx_event_type
  value : Nat
  deriving DecidableEq, Repr

/-! ## `ci_ef10ct_test.h` : queue-set requests -/

/-- The macro `EFX_AUXILIARY_QUEUE_ALLOC`. -/
def EFX_AUXILIARY_QUEUE_ALLOC : Int := -1

/-- The macro `EFX_AUXILIARY_QUEUE_DONT_ALLOC`. -/
def EFX_AUXILIARY_QUEUE_DONT_ALLOC : Int := -2

/-- The C structure `struct efx_auxiliary_queue_set`: four `int` fields. -/
structure efx_auxiliary_queue_set where
  evq : Int
  txq : Int
  rxq : Int
  irq : Int
  deriving DecidableEq, Repr

/-- The C structure `struct efx_auxiliary_queues_alloc_params`; the trailing
array `q_sets` is a list. -/
structure efx_auxiliary_queues_alloc_params where
  n_queue_sets : Int
  q_sets : List efx_auxiliary_queue_set
  deriving DecidableEq, Repr

/-- A field asks for any free index. -/
def isAllocAny (v : Int) : Prop := v = EFX_AUXILIARY_QUEUE_ALLOC

/-- A field asks to skip the sub-resource. -/
def isDontAlloc (v : Int) : Prop := v = EFX_AUXILIARY_QUEUE_DONT_ALLOC

/-- A field names a specific queue or interrupt index; indices are the
`unsigned int` values of `struct efx_auxiliary_nic_resources`, so non-negative. -/
def isSpecificIndex (v : Int) : Prop := 0 ≤ v

instance (v : Int) : Decidable (isAllocAny v) := by unfold isAllocAny; infer_instance
instance (v : Int) : Decidable (isDontAlloc v) := by unfold isDontAlloc; infer_instance
instance (v : Int) : Decidable (isSpecificIndex v) := by unfold isSpecificIndex; infer_instance

/-! ## `uapi_top.c` : `ef_cp_init` / `ef_cp_fini`

The collaborators (`calloc`, `oo_fd_open`, `oo_cp_create`, `oo_cp_destroy`,
`oo_fd_close`, `free`) are outside the file. Their outcomes are inputs; what
they acquire and release is recorded in an explicit world state. -/

/-- Something the process holds until it gives it back. -/
inductive Resource
  /-- a heap block returned by `calloc`, by address -/
  | mem (p : Nat)
  /-- a driver file descriptor opened by `oo_fd_open` -/
  | fd (fd : Int)
  /-- the control-plane mapping made by `oo_cp_create` inside the handle at `owner` -/
  | cplane (owner : Nat)
  deriving DecidableEq, Repr

/-- One call made to a collaborator, or the store through `cph`. -/
inductive Call
  | calloc (ret : Nat)
  | oo_fd_open (rc : Int) (fd : Int)
  | oo_cp_create (owner : Nat) (fd : Int) (rc : Int)
  | oo_cp_destroy (owner : Nat)
  | oo_fd_close (fd : Int)
  | free (p : Nat)
  | store_cph (p : Nat)
  deriving DecidableEq, Repr

/-- The fields of `struct ef_cp_handle` that `uapi_top.c` touches, together
with the address of the block the handle lives in. `cp` is embedded in the
handle, so it is identified by that address. Pointers are addresses, 0 is NULL. -/
structure ef_cp_handle where
  addr : Nat
  drv_fd : Int
  llap_extra : Nat
  deriving DecidableEq, Repr

/-- What the collaborators answer during one run of `ef_cp_init`. -/
structure Env where
  /-- result of `calloc(1, sizeof(*cp))` -/
  calloc_cp : Nat
  /-- return code of `oo_fd_open` -/
  fd_open_rc : Int
  /-- descriptor `oo_fd_open` stores in `cp->drv_fd` -/
  drv_fd : Int
  /-- return code of `oo_cp_create` -/
  cp_create_rc : Int
  /-- result of `calloc(llap_max, sizeof(*cp->llap_extra))` -/
  calloc_llap : Nat
  deriving DecidableEq, Repr

/-- Process state: resources held, the calls made so far (oldest first), and
the caller's `*cph` slot (`none` while nothing has been stored there). -/
structure World where
  held : List Resource
  trace : List Call
  cph : Option ef_cp_handle
  deriving DecidableEq, Repr

/-- Record a call. -/
def World.log (w : World) (c : Call) : World := { w with trace := w.trace ++ [c] }

/-- Take hold of a resource. -/
def World.acquire (w : World) (r : Resource) : World := { w with held := r :: w.held }

/-- Give a resource back. -/
def World.release (w : World) (r : Resource) : World := { w with held := w.held.erase r }

/-- `calloc`: a non-NULL result is a fresh block now held by the process. -/
def World.calloc (w : World) (ret : Nat) : World :=
  let w := w.log (.calloc ret)
  if ret = 0 then w else w.acquire (.mem ret)

/-- `oo_fd_open`: on return code 0 a descriptor is open. -/
def World.oo_fd_open (w : World) (rc : Int) (fd : Int) : World :=
  let w := w.log (.oo_fd_open rc fd)
  if rc = 0 then w.acquire (.fd fd) else w

/-- `oo_cp_create`: on return code 0 the control plane is mapped. -/
def World.oo_cp_create (w : World) (owner : Nat) (fd : Int) (rc : Int) : World :=
  let w := w.log (.oo_cp_create owner fd rc)
  if rc = 0 then w.acquire (.cplane owner) else w

/-- `oo_cp_destroy`. -/
def World.oo_cp_destroy (w : World) (owner : Nat) : World :=
  (w.log (.oo_cp_destroy owner)).release (.cplane owner)

/-- `oo_fd_close`. -/
def World.oo_fd_close (w : World) (fd : Int) : World :=
  (w.log (.oo_fd_close fd)).release (.fd fd)

/-- `free`. -/
def World.free (w : World) (p : Nat) : World :=
  (w.log (.free p)).release (.mem p)

/-- The assignment `*cph = cp`. -/
def World.store_cph (w : World) (cp : ef_cp_handle) : World :=
  { w.log (.store_cph cp.addr) with cph := some cp }

/-- Label `fail1:` of `ef_cp_init`. -/
def ef_cp_init.fail1 (cp : ef_cp_handle) (rc : Int) (w : World) : Int × World :=
  (rc, w.free cp.addr)

/-- Label `fail2:` of `ef_cp_init`, falling through to `fail1`. -/
def ef_cp_init.fail2 (cp : ef_cp_handle) (rc : Int) (w : World) : Int × World :=
  ef_cp_init.fail1 cp rc (w.oo_fd_close cp.drv_fd)

/-- Label `fail3:` of `ef_cp_init`, falling through to `fail2`. -/
def ef_cp_init.fail3 (cp : ef_cp_handle) (rc : Int) (w : World) : Int × World :=
  ef_cp_init.fail2 cp rc (w.oo_cp_destroy cp.addr)

/-- The function `ef_cp_init(cph, flags)`: return code and final world. -/
def ef_cp_init (e : Env) (flags : Nat) (w : World) : Int × World :=
  if flags ≠ 0 then (-EINVAL, w) else
  let w := w.calloc e.calloc_cp
  if e.calloc_cp = 0 then (-ENOMEM, w) else
  let cp : ef_cp_handle := { addr := e.calloc_cp, drv_fd := 0, llap_extra := 0 }
  let rc := e.fd_open_rc
  let w := w.oo_fd_open rc e.drv_fd
  let cp := { cp with drv_fd := e.drv_fd }
  if rc ≠ 0 then ef_cp_init.fail1 cp rc w else
  let rc := e.cp_create_rc
  let w := w.oo_cp_create cp.addr cp.drv_fd rc
  if rc ≠ 0 then ef_cp_init.fail2 cp rc w else
  let w := w.calloc e.calloc_llap
  let cp := { cp with llap_extra := e.calloc_llap }
  if cp.llap_extra = 0 then ef_cp_init.fail3 cp (-ENOMEM) w else
  (0, w.store_cph cp)

/-- The function `ef_cp_fini(cp)`. -/
def ef_cp_fini (cp : ef_cp_handle) (w : World) : World :=
  let w := w.oo_cp_destroy cp.addr
  let w := w.oo_fd_close cp.drv_fd
  w.free cp.addr

/-- The resources a run of calls acquired, in order of acquisition. -/
def acquired : List Call → List Resource
  | [] => []
  | .calloc ret :: cs => if ret = 0 then acquired cs else .mem ret :: acquired cs
  | .oo_fd_open rc fd :: cs => if rc = 0 then .fd fd :: acquired cs else acquired cs
  | .oo_cp_create owner _ rc :: cs =>
      if rc = 0 then .cplane owner :: acquired cs else acquired cs
  | _ :: cs => acquired cs

/-- The resources a run of calls released, in order of release. -/
def released : List Call → List Resource
  | [] => []
  | .oo_cp_destroy owner :: cs => .cplane owner :: released cs
  | .oo_fd_close fd :: cs => .fd fd :: released cs
  | .free p :: cs => .mem p :: released cs
  | _ :: cs => released cs

/-- Whether a run of calls stores through `cph`. -/
def writesCph (cs : List Call) : Prop := ∃ p, Call.store_cph p ∈ cs

/-- The calls `ef_cp_init` added to the trace. -/
def newCalls (w w' : World) : List Call := w'.trace.drop w.trace.length


/-! ## The device operations, modelled from the specification

`struct efx_auxiliary_devops` only declares `open`, `close`, `queues_alloc`
and `queues_free`; the functions behind the pointers, and the event delivery
that calls `efx_event_handler`, are not in the two source files. They are
modelled here from the specification (sections 3, 4.1, 4.2, 4.4 and 7). -/

/-- Modelled from the spec: the error taxonomy of section 7. -/
inductive Error
  | InvalidHandle
  | InvalidArgument
  | ResourceExhausted
  | Unsupported
  | PermissionDenied
  | BufferTooSmall
  | DeviceUnavailable
  deriving DecidableEq, Repr

/-- Modelled from the spec: every operation returns synchronously either a
value or one error of the taxonomy. -/
inductive Result (α : Type)
  | ok (a : α)
  | error (e : Error)
  deriving DecidableEq, Repr

/-- Modelled from the spec: the four sub-resources of a queue set. -/
inductive Kind
  | evq
  | txq
  | rxq
  | irq
  deriving DecidableEq, Repr

/-- Modelled from the spec: what a `*_req` field of a requested queue set asks
for: any free index, this specific index, or nothing. -/
inductive Request
  | any
  | specific (i : Nat)
  | skip
  deriving DecidableEq, Repr

/-- The `int` a request is written as in `struct efx_auxiliary_queue_set`. -/
def Request.toInt : Request → Int
  | .any => EFX_AUXILIARY_QUEUE_ALLOC
  | .specific i => (i : Int)
  | .skip => EFX_AUXILIARY_QUEUE_DONT_ALLOC

/-- Modelled from the spec: one requested queue set `{evq_req, txq_req,
rxq_req, irq_req}`. -/
structure RequestSet where
  evq : Request
  txq : Request
  rxq : Request
  irq : Request
  deriving DecidableEq, Repr

/-- Modelled from the spec: one allocated queue set; each sub-resource is an
index or "no allocation requested". -/
structure QueueSet where
  evq : Option Nat
  txq : Option Nat
  rxq : Option Nat
  irq : Option Nat
  deriving DecidableEq, Repr

/-- The request of a set for one kind of sub-resource. -/
def RequestSet.get (r : RequestSet) : Kind → Request
  | .evq => r.evq
  | .txq => r.txq
  | .rxq => r.rxq
  | .irq => r.irq

/-- The index a queue set holds for one kind of sub-resource. -/
def QueueSet.get (q : QueueSet) : Kind → Option Nat
  | .evq => q.evq
  | .txq => q.txq
  | .rxq => q.rxq
  | .irq => q.irq

/-- The request that names exactly one allocated sub-resource. -/
def Request.ofIndex : Option Nat → Request
  | some i => .specific i
  | none => .skip

/-- The request that names exactly the indices of an allocated queue set. -/
def QueueSet.toRequest (q : QueueSet) : RequestSet :=
  { evq := .ofIndex q.evq, txq := .ofIndex q.txq, rxq := .ofIndex q.rxq,
    irq := .ofIndex q.irq }

/-- Whether index `i` of kind `k` occurs in one of the queue sets. -/
def owns (sets : List QueueSet) (k : Kind) (i : Nat) : Bool :=
  sets.any (fun q => q.get k == some i)

/-- Modelled from the spec: the availability bitmap of one kind of index: bit `i`
of `free` is set when index `i` is free; `lim` bounds the index range that
"any free index" is searched in. -/
structure IndexPool where
  lim : Nat
  free : Nat
  deriving DecidableEq, Repr

/-- Index `i` is free. -/
def IndexPool.isFree (p : IndexPool) (i : Nat) : Bool := p.free.testBit i

/-- Modelled from the spec: first fit, the lowest free index of the range. -/
def IndexPool.firstFree (p : IndexPool) : Option Nat := (List.range p.lim).find? p.isFree

/-- Clear the bit of a free index. Called on free indices only. -/
def IndexPool.take (p : IndexPool) (i : Nat) : IndexPool := { p with free := p.free ^^^ (1 <<< i) }

/-- Set the bit of an index: it is free again. -/
def IndexPool.give (p : IndexPool) (i : Nat) : IndexPool := { p with free := p.free ||| (1 <<< i) }

/-- Modelled from the spec: the resource pool, one availability bitmap for each
of event queues, transmit queues, receive queues and interrupt vectors. It
holds no ownership. -/
structure ResourcePool where
  evq : IndexPool
  txq : IndexPool
  rxq : IndexPool
  irq : IndexPool
  deriving DecidableEq, Repr

/-- The bitmap of one kind. -/
def ResourcePool.get (p : ResourcePool) : Kind → IndexPool
  | .evq => p.evq
  | .txq => p.txq
  | .rxq => p.rxq
  | .irq => p.irq

/-- Replace the bitmap of one kind. -/
def ResourcePool.set (p : ResourcePool) (k : Kind) (x : IndexPool) : ResourcePool :=
  match k with
  | .evq => { p with evq := x }
  | .txq => { p with txq := x }
  | .rxq => { p with rxq := x }
  | .irq => { p with irq := x }

/-- Modelled from the spec: a session (client handle) holds an event callback
reference, the caller context, the bitmask of subscribed event types and the
queue sets it currently owns. `invoked` records the invocations of its
callback, oldest first, each with the event and the budget passed. -/
structure Session where
  handle : Nat
  func : Nat
  driver_data : Nat
  events_requested : Nat
  owned : List QueueSet
  invoked : List (efx_auxiliary_event × Int)
  deriving DecidableEq, Repr

/-- Modelled from the spec: the device: its resource pool, its open sessions,
the maximum number of concurrent sessions and the next client id to hand out. -/
structure Device where
  pool : ResourcePool
  sessions : List Session
  max_sessions : Nat
  next_handle : Nat
  deriving DecidableEq, Repr

/-- The open session a handle refers to, if any. -/
def Device.session? (d : Device) (h : Nat) : Option Session :=
  d.sessions.find? (fun s => s.handle == h)

/-- Modelled from the spec: `open(event_callback, subscribed_event_mask,
caller_context)` creates a session and returns its handle; it fails with
`ResourceExhausted` when the maximum number of concurrent sessions is reached. -/
def devops_open (d : Device) (func : Nat) (events_requested : Nat) (driver_data : Nat) :
    Result Nat × Device :=
  if d.max_sessions ≤ d.sessions.length then (.error .ResourceExhausted, d)
  else
    (.ok d.next_handle,
     { d with
       sessions := d.sessions ++
         [{ handle := d.next_handle, func := func, driver_data := driver_data,
            events_requested := events_requested, owned := [], invoked := [] }]
       next_handle := d.next_handle + 1 })

/-- Modelled from the spec: the decision for one sub-resource of a request,
on the scratch bitmap of its kind. "Any" takes the first free index of the
range, a specific index is taken when free and passed through when the caller
already holds it (`mine`: it occurs in a queue set the caller owns or in a set
decided earlier in the same batch), "skip" allocates nothing. `none`: cannot
be satisfied. -/
def allocOne (mine : Nat → Bool) (p : IndexPool) : Request → Option (IndexPool × Option Nat)
  | .any =>
    match p.firstFree with
    | some i => some (p.take i, some i)
    | none => none
  | .specific i =>
    if p.isFree i then some (p.take i, some i)
    else if mine i then some (p, some i)
    else none
  | .skip => some (p, none)

/-- Modelled from the spec: the decision for one requested queue set: its four
sub-resources, each on the bitmap of its kind. -/
def allocSet (mine : Kind → Nat → Bool) (pool : ResourcePool) (r : RequestSet) :
    Option (ResourcePool × QueueSet) :=
  match allocOne (mine .evq) pool.evq r.evq with
  | none => none
  | some (e, evq) =>
    match allocOne (mine .txq) pool.txq r.txq with
    | none => none
    | some (t, txq) =>
      match allocOne (mine .rxq) pool.rxq r.rxq with
      | none => none
      | some (x, rxq) =>
        match allocOne (mine .irq) pool.irq r.irq with
        | none => none
        | some (q, irq) =>
          some ({ evq := e, txq := t, rxq := x, irq := q },
                { evq := evq, txq := txq, rxq := rxq, irq := irq })

/-- Modelled from the spec: the atomic batch decision: the requested sets are
decided in order on a scratch copy of the pool; `got` are the sets decided so
far. `none` as soon as one sub-resource cannot be satisfied. -/
def allocBatch (owned : List QueueSet) :
    ResourcePool → List QueueSet → List RequestSet → Option (ResourcePool × List QueueSet)
  | pool, got, [] => some (pool, got)
  | pool, got, r :: rs =>
    match allocSet (owns (owned ++ got)) pool r with
    | none => none
    | some (pool', q) => allocBatch owned pool' (got ++ [q]) rs

/-- Modelled from the spec: `queues_alloc(session, requested_sets[])`. All or
nothing: when the batch decision fails nothing is committed and the call
fails with `ResourceExhausted`; otherwise the decided pool is committed and the
allocated sets are bound to the requesting session. A handle that is not open
yields `InvalidHandle`. -/
def queues_alloc (d : Device) (h : Nat) (reqs : List RequestSet) :
    Result (List QueueSet) × Device :=
  match d.session? h with
  | none => (.error .InvalidHandle, d)
  | some s =>
    match allocBatch s.owned d.pool [] reqs with
    | none => (.error .ResourceExhausted, d)
    | some (pool', got) =>
      (.ok got,
       { d with
         pool := pool'
         sessions := d.sessions.map
           (fun x => if x.handle = h then { x with owned := x.owned ++ got } else x) })

/-- Return one sub-resource of a queue set, when it holds an index. -/
def IndexPool.giveOpt (p : IndexPool) : Option Nat → IndexPool
  | some i => p.give i
  | none => p

/-- Return the indices of one queue set to the pool. -/
def ResourcePool.giveSet (p : ResourcePool) (q : QueueSet) : ResourcePool :=
  { evq := p.evq.giveOpt q.evq, txq := p.txq.giveOpt q.txq, rxq := p.rxq.giveOpt q.rxq,
    irq := p.irq.giveOpt q.irq }

/-- Return the indices of a batch of queue sets to the pool. -/
def ResourcePool.giveAll (p : ResourcePool) (sets : List QueueSet) : ResourcePool :=
  sets.foldl ResourcePool.giveSet p

/-- A queue set without the indices that occur in a freed batch. -/
def QueueSet.without (sets : List QueueSet) (q : QueueSet) : QueueSet :=
  { evq := q.evq.filter (fun i => !owns sets .evq i)
    txq := q.txq.filter (fun i => !owns sets .txq i)
    rxq := q.rxq.filter (fun i => !owns sets .rxq i)
    irq := q.irq.filter (fun i => !owns sets .irq i) }

/-- A queue set holding no index at all. -/
def QueueSet.isEmpty (q : QueueSet) : Bool :=
  q.evq.isNone && q.txq.isNone && q.rxq.isNone && q.irq.isNone

/-- Every index of the batch is owned (occurs in `owned`). -/
def allOwned (owned : List QueueSet) (sets : List QueueSet) : Bool :=
  sets.all (fun q =>
    [Kind.evq, Kind.txq, Kind.rxq, Kind.irq].all (fun k =>
      match q.get k with
      | some i => owns owned k i
      | none => true))

/-- Modelled from the spec: `queues_free(session, sets[])` returns indices to
the free pool; it fails with `InvalidArgument` if any index in the batch is not
currently owned by the calling session, with no partial free. A handle that is
not open yields `InvalidHandle`. -/
def queues_free (d : Device) (h : Nat) (sets : List QueueSet) : Result Unit × Device :=
  match d.session? h with
  | none => (.error .InvalidHandle, d)
  | some s =>
    if allOwned s.owned sets then
      (.ok (),
       { d with
         pool := d.pool.giveAll sets
         sessions := d.sessions.map
           (fun x =>
             if x.handle = h then
               { x with owned := (x.owned.map (QueueSet.without sets)).filter (fun q => !q.isEmpty) }
             else x) })
    else (.error .InvalidArgument, d)

/-- Modelled from the spec: `close(session)`: every queue set the session still
owns is implicitly freed, the callback is unregistered and the handle is
invalidated. -/
def devops_close (d : Device) (h : Nat) : Result Unit × Device :=
  match d.session? h with
  | none => (.error .InvalidHandle, d)
  | some s =>
    (.ok (),
     { d with
       pool := d.pool.giveAll s.owned
       sessions := d.sessions.filter (fun x => x.handle != h) })

/-- Modelled from the spec: a session is subscribed to an event type when the
bit of that type is set in its mask. -/
def subscribed (events_requested : Nat) (t : efx_event_type) : Bool :=
  events_requested &&& BIT t.val != 0

/-- Modelled from the spec: the callback of a session is invoked, with the
event and the budget, when the session is subscribed to the type of the event. -/
def Session.deliver (s : Session) (ev : efx_auxiliary_event) (budget : Int) : Session :=
  if subscribed s.events_requested ev.type then
    { s with invoked := s.invoked ++ [(ev, budget)] }
  else s

/-- Modelled from the spec: `deliver(event)`: every open session whose
subscription mask includes the type of the event has its callback invoked,
synchronously, once. -/
def deliver (d : Device) (ev : efx_auxiliary_event) (budget : Int) : Device :=
  { d with sessions := d.sessions.map (fun s => s.deliver ev budget) }

/-- A sequence of `deliver` calls, in order. -/
def deliverAll (d : Device) : List (efx_auxiliary_event × Int) → Device
  | [] => d
  | (ev, budget) :: evs => deliverAll (deliver d ev budget) evs

/-- Index `i` of kind `k` is still available to a set of a batch: the pool has
it free before the call and no earlier set of the batch was given it. -/
def available (pool : ResourcePool) (earlier : List QueueSet) (k : Kind) (i : Nat) : Bool :=
  (pool.get k).isFree i && !owns earlier k i

/-- The answer `v` satisfies one sub-resource request, against the pool as it
is before the call, the queue sets the caller owns and the answers given to
the earlier sets of the batch: nothing for "skip"; for a specific index that
very index, which the pool has free or the caller holds; for "any" an index of
the range that is still available. -/
def answers (pool : ResourcePool) (owned earlier : List QueueSet) (k : Kind) :
    Request → Option Nat → Bool
  | .skip, v => v.isNone
  | .specific i, v => v == some i && ((pool.get k).isFree i || owns owned k i)
  | .any, some i => decide (i < (pool.get k).lim) && available pool earlier k i
  | .any, none => false

/-- The answer first fit gives to one sub-resource request: as `answers`, and
for "any" the lowest index of the range that is still available. -/
def answersFirstFit (pool : ResourcePool) (owned earlier : List QueueSet) (k : Kind) :
    Request → Option Nat → Bool
  | .any, v => v.isSome && v == (List.range (pool.get k).lim).find? (available pool earlier k)
  | r, v => answers pool owned earlier k r v

/-- The sets `out` answer the requested sets one for one, every sub-resource
by the rule `ans`, each set seeing the answers to the sets before it. -/
def decidedFrom (ans : List QueueSet → Kind → Request → Option Nat → Bool) :
    List QueueSet → List RequestSet → List QueueSet → Bool
  | _, [], [] => true
  | earlier, r :: rs, q :: qs =>
    [Kind.evq, Kind.txq, Kind.rxq, Kind.irq].all (fun k => ans earlier k (r.get k) (q.get k)) &&
      decidedFrom ans (earlier ++ [q]) rs qs
  | _, _, _ => false

/-- The sets `out` satisfy the batch `reqs` for the session owning `owned`. -/
def satisfies (pool : ResourcePool) (owned : List QueueSet) (reqs : List RequestSet)
    (out : List QueueSet) : Bool :=
  decidedFrom (answers pool owned) [] reqs out

/-- The sets `out` are the first-fit answer to the batch `reqs`. -/
def isFirstFit (pool : ResourcePool) (owned : List QueueSet) (reqs : List RequestSet)
    (out : List QueueSet) : Bool :=
  decidedFrom (answersFirstFit pool owned) [] reqs out

/-- The batch cannot be satisfied: whatever indices are handed out, some
requested sub-resource is left without a legitimate answer. -/
def cannotSatisfy (pool : ResourcePool) (owned : List QueueSet) (reqs : List RequestSet) :
    Prop :=
  ∀ out, satisfies pool owned reqs out = false

/-- The batch cannot be satisfied by first fit: some requested sub-resource has
no first-fit answer. -/
def cannotSatisfyFirstFit (pool : ResourcePool) (owned : List QueueSet)
    (reqs : List RequestSet) : Prop :=
  ∀ out, isFirstFit pool owned reqs out = false

/-- The scratch state of a batch decision agrees with the pool before the call
and the answers given so far: a bit is set exactly for the indices still
available, and every index given so far was free or the caller's. -/
def PlanInv (pool0 : ResourcePool) (owned : List QueueSet) (pool : ResourcePool)
    (got : List QueueSet) : Prop :=
  ∀ k, (pool.get k).lim = (pool0.get k).lim ∧
    (∀ j, (pool.get k).isFree j = available pool0 got k j) ∧
    (∀ i, owns got k i = true → (pool0.get k).isFree i = true ∨ owns owned k i = true)

/-- Some index of the batch is not owned by the session owning `owned`. -/
def hasUnowned (owned : List QueueSet) (sets : List QueueSet) : Prop :=
  ∃ q ∈ sets, ∃ k i, q.get k = some i ∧ owns owned k i = false

/-! ## A small device to evaluate the model on -/

/-- A pool with event queue 2, receive queues 0 to 2 and interrupt vectors 6 and
7 free, and no transmit queue free. -/
def examplePool : ResourcePool :=
  { evq := { lim := 4, free := 0b0100 }
    txq := { lim := 4, free := 0 }
    rxq := { lim := 4, free := 0b0111 }
    irq := { lim := 8, free := 0b11000000 } }

/-- Session 1 is subscribed to link changes only and owns two queue sets. -/
def exampleSession1 : Session :=
  { handle := 1, func := 7, driver_data := 0
    events_requested := BIT efx_event_type.EFX_EVENT_LINK_CHANGE.val
    owned := [{ evq := some 1, txq := some 0, rxq := none, irq := some 4 },
              { evq := some 1, txq := some 1, rxq := some 3, irq := some 5 }]
    invoked := [] }

/-- Session 2 is subscribed to every event and owns nothing. -/
def exampleSession2 : Session :=
  { handle := 2, func := 8, driver_data := 0, events_requested := EFX_ALL_EVENTS
    owned := [], invoked := [] }

/-- A device with the two sessions open. -/
def exampleDevice : Device :=
  { pool := examplePool, sessions := [exampleSession1, exampleSession2]
    max_sessions := 2, next_handle := 3 }

/-! ## Theorems: the header constants -/

/-- C2: the two request sentinels differ and are both negative, and for every
`int` field value at most one of the three meanings (any free index, skip,
specific index) applies; the field written for a request has exactly the
meaning of that request. -/
theorem request_encoding_exclusive :
    EFX_AUXILIARY_QUEUE_ALLOC ≠ EFX_AUXILIARY_QUEUE_DONT_ALLOC ∧
    EFX_AUXILIARY_QUEUE_ALLOC < 0 ∧ EFX_AUXILIARY_QUEUE_DONT_ALLOC < 0 ∧
    ¬ isSpecificIndex EFX_AUXILIARY_QUEUE_ALLOC ∧
    ¬ isSpecificIndex EFX_AUXILIARY_QUEUE_DONT_ALLOC ∧
    (∀ v : Int, ¬ (isAllocAny v ∧ isDontAlloc v) ∧ ¬ (isAllocAny v ∧ isSpecificIndex v) ∧
      ¬ (isDontAlloc v ∧ isSpecificIndex v)) ∧
    (∀ r : Request, (isAllocAny r.toInt ↔ r = .any) ∧ (isDontAlloc r.toInt ↔ r = .skip) ∧
      (isSpecificIndex r.toInt ↔ ∃ i, r = .specific i)) := by
  refine ⟨by decide, by decide, by decide, by decide, by decide, ?_, ?_⟩
  · intro v
    simp only [isAllocAny, isDontAlloc, isSpecificIndex, EFX_AUXILIARY_QUEUE_ALLOC,
      EFX_AUXILIARY_QUEUE_DONT_ALLOC]
    omega
  · intro r
    cases r with
    | any => simp [Request.toInt, isAllocAny, isDontAlloc, isSpecificIndex,
        EFX_AUXILIARY_QUEUE_ALLOC, EFX_AUXILIARY_QUEUE_DONT_ALLOC]
    | specific i =>
      simp only [Request.toInt, isAllocAny, isDontAlloc, isSpecificIndex,
        EFX_AUXILIARY_QUEUE_ALLOC, EFX_AUXILIARY_QUEUE_DONT_ALLOC]
      refine ⟨⟨fun h => by omega, fun h => by cases h⟩, ⟨fun h => by omega, fun h => by cases h⟩,
        ⟨fun _ => ⟨i, rfl⟩, fun _ => by omega⟩⟩
    | skip => simp [Request.toInt, isAllocAny, isDontAlloc, isSpecificIndex,
        EFX_AUXILIARY_QUEUE_ALLOC, EFX_AUXILIARY_QUEUE_DONT_ALLOC]

/-- C6: two different event types occupy different bits of the subscription
bitmap, and the mask `BIT(EFX_EVENT_LINK_CHANGE)` does not contain the bit of
`EFX_EVENT_MCDI`, so a session whose mask is that of link change is not
subscribed to MCDI events. -/
theorem event_bits_disjoint :
    (∀ t u : efx_event_type, t ≠ u → BIT t.val &&& BIT u.val = 0) ∧
    BIT efx_event_type.EFX_EVENT_LINK_CHANGE.val &&& BIT efx_event_type.EFX_EVENT_MCDI.val = 0 ∧
    (BIT efx_event_type.EFX_EVENT_LINK_CHANGE.val).testBit
      efx_event_type.EFX_EVENT_MCDI.val = false ∧
    subscribed (BIT efx_event_type.EFX_EVENT_LINK_CHANGE.val) .EFX_EVENT_MCDI = false ∧
    ∀ t u : efx_event_type, subscribed (BIT t.val) u = true ↔ t = u := by
  refine ⟨?_, by decide, by decide, by decide, ?_⟩
  swap
  · intro t u
    cases t <;> cases u <;> decide
  intro t u h
  cases t <;> cases u <;> first | exact absurd rfl h | decide

/-- C6, at a concrete pair: link-change and MCDI. -/
theorem event_bits_disjoint_witness :
    efx_event_type.EFX_EVENT_LINK_CHANGE ≠ efx_event_type.EFX_EVENT_MCDI ∧
    BIT efx_event_type.EFX_EVENT_LINK_CHANGE.val &&& BIT efx_event_type.EFX_EVENT_MCDI.val = 0 :=
  ⟨by decide, event_bits_disjoint.1 _ _ (by decide)⟩

/-- C7: `EFX_ALL_EVENTS` is 0xF, and bit `b` is set in it exactly when `b` is
the value of one of the four members of `enum efx_event_type`. -/
theorem all_events_exact :
    EFX_ALL_EVENTS = 0xF ∧
    (∀ t : efx_event_type, EFX_ALL_EVENTS &&& BIT t.val = BIT t.val) ∧
    ∀ b : Nat, EFX_ALL_EVENTS.testBit b = true ↔ ∃ t : efx_event_type, t.val = b := by
  have h15 : EFX_ALL_EVENTS = 15 := by decide
  refine ⟨h15, ?_, ?_⟩
  · intro t; cases t <;> decide
  · intro b
    rw [h15]
    constructor
    · intro hb
      have hlt : b < 4 := by
        by_contra hge
        have h16 : (15 : Nat) < 2 ^ b :=
          lt_of_lt_of_le (by norm_num : (15 : Nat) < 2 ^ 4)
            (Nat.pow_le_pow_right (by norm_num) (by omega))
        rw [Nat.testBit_lt_two_pow h16] at hb
        exact Bool.noConfusion hb
      interval_cases b
      · exact ⟨.EFX_EVENT_IN_RESET_DOWN, rfl⟩
      · exact ⟨.EFX_EVENT_IN_RESET_UP, rfl⟩
      · exact ⟨.EFX_EVENT_LINK_CHANGE, rfl⟩
      · exact ⟨.EFX_EVENT_MCDI, rfl⟩
    · rintro ⟨t, rfl⟩
      cases t <;> decide

/-! ## Theorems: `ef_cp_init` / `ef_cp_fini` -/

/-- The calls of a run, spelled out for each way `ef_cp_init` can end. -/
theorem ef_cp_init_trace (e : Env) (flags : Nat) (w : World) :
    (ef_cp_init e flags w).2.trace = w.trace ++
      (if flags ≠ 0 then []
       else if e.calloc_cp = 0 then [.calloc 0]
       else if e.fd_open_rc ≠ 0 then
         [.calloc e.calloc_cp, .oo_fd_open e.fd_open_rc e.drv_fd, .free e.calloc_cp]
       else if e.cp_create_rc ≠ 0 then
         [.calloc e.calloc_cp, .oo_fd_open 0 e.drv_fd,
          .oo_cp_create e.calloc_cp e.drv_fd e.cp_create_rc,
          .oo_fd_close e.drv_fd, .free e.calloc_cp]
       else if e.calloc_llap = 0 then
         [.calloc e.calloc_cp, .oo_fd_open 0 e.drv_fd,
          .oo_cp_create e.calloc_cp e.drv_fd 0, .calloc 0,
          .oo_cp_destroy e.calloc_cp, .oo_fd_close e.drv_fd, .free e.calloc_cp]
       else
         [.calloc e.calloc_cp, .oo_fd_open 0 e.drv_fd,
          .oo_cp_create e.calloc_cp e.drv_fd 0, .calloc e.calloc_llap,
          .store_cph e.calloc_cp]) := by
  unfold ef_cp_init
  by_cases hf : flags ≠ 0
  · simp [hf]
  by_cases h1 : e.calloc_cp = 0
  · simp [hf, h1, World.calloc, World.log]
  by_cases h2 : e.fd_open_rc ≠ 0
  · simp [hf, h1, h2, World.calloc, World.log, World.acquire, World.oo_fd_open,
      ef_cp_init.fail1, World.free, World.release]
  have h2' : e.fd_open_rc = 0 := not_not.mp h2
  by_cases h3 : e.cp_create_rc ≠ 0
  · simp [hf, h1, h2', h3, World.calloc, World.log, World.acquire, World.oo_fd_open,
      World.oo_cp_create, ef_cp_init.fail1, ef_cp_init.fail2, World.free, World.release,
      World.oo_fd_close]
  have h3' : e.cp_create_rc = 0 := not_not.mp h3
  by_cases h4 : e.calloc_llap = 0
  · simp [hf, h1, h2', h3', h4, World.calloc, World.log, World.acquire, World.oo_fd_open,
      World.oo_cp_create, ef_cp_init.fail1, ef_cp_init.fail2, ef_cp_init.fail3, World.free,
      World.release, World.oo_fd_close, World.oo_cp_destroy]
  · simp [hf, h1, h2', h3', h4, World.calloc, World.log, World.acquire, World.oo_fd_open,
      World.oo_cp_create, World.store_cph]

/-- C8: `ef_cp_init` is atomic on failure. When it returns non-zero, `*cph` is
left as it was and no store through `cph` happened, the held resources are
exactly those held before, and the calls it made released what they acquired,
each once, in reverse order of acquisition; the value returned is `-EINVAL`
for non-zero flags, `-ENOMEM` for a failed allocation and otherwise the failing
collaborator's return code. When it returns 0, `*cph` holds the new handle. -/
theorem ef_cp_init_atomic (e : Env) (flags : Nat) (w : World) :
    ((ef_cp_init e flags w).1 ≠ 0 →
      (ef_cp_init e flags w).2.cph = w.cph ∧
      ¬ writesCph (newCalls w (ef_cp_init e flags w).2) ∧
      (ef_cp_init e flags w).2.held = w.held ∧
      released (newCalls w (ef_cp_init e flags w).2) =
        (acquired (newCalls w (ef_cp_init e flags w).2)).reverse ∧
      (ef_cp_init e flags w).1 =
        (if flags ≠ 0 then -EINVAL
         else if e.calloc_cp = 0 then -ENOMEM
         else if e.fd_open_rc ≠ 0 then e.fd_open_rc
         else if e.cp_create_rc ≠ 0 then e.cp_create_rc
         else -ENOMEM)) ∧
    ((ef_cp_init e flags w).1 = 0 →
      (ef_cp_init e flags w).2.cph =
        some { addr := e.calloc_cp, drv_fd := e.drv_fd, llap_extra := e.calloc_llap } ∧
      e.calloc_cp ≠ 0 ∧ e.calloc_llap ≠ 0) := by
  have htr := ef_cp_init_trace e flags w
  unfold newCalls
  rw [htr, List.drop_left]
  clear htr
  unfold ef_cp_init
  by_cases hf : flags ≠ 0
  · simp [hf, writesCph, acquired, released, EINVAL]
  by_cases h1 : e.calloc_cp = 0
  · simp [hf, h1, writesCph, acquired, released, ENOMEM, World.calloc, World.log]
  by_cases h2 : e.fd_open_rc ≠ 0
  · simp [hf, h1, h2, writesCph, acquired, released, World.calloc, World.log, World.acquire,
      World.oo_fd_open, ef_cp_init.fail1, World.free, World.release]
  have h2' : e.fd_open_rc = 0 := not_not.mp h2
  by_cases h3 : e.cp_create_rc ≠ 0
  · simp [hf, h1, h2', h3, writesCph, acquired, released, World.calloc, World.log,
      World.acquire, World.oo_fd_open, World.oo_cp_create, ef_cp_init.fail1,
      ef_cp_init.fail2, World.free, World.release, World.oo_fd_close]
  have h3' : e.cp_create_rc = 0 := not_not.mp h3
  by_cases h4 : e.calloc_llap = 0
  · simp [hf, h1, h2', h3', h4, writesCph, acquired, released, ENOMEM, World.calloc,
      World.log, World.acquire, World.oo_fd_open, World.oo_cp_create, ef_cp_init.fail1,
      ef_cp_init.fail2, ef_cp_init.fail3, World.free, World.release, World.oo_fd_close,
      World.oo_cp_destroy]
  · simp [hf, h1, h2', h3', h4, World.calloc, World.log, World.acquire, World.oo_fd_open,
      World.oo_cp_create, World.store_cph]

/-- C8 at a concrete run: the second `calloc` fails after the descriptor and the
mapping were obtained. -/
theorem ef_cp_init_atomic_witness :
    (ef_cp_init ⟨4096, 0, 3, 0, 0⟩ 0 ⟨[], [], none⟩).1 ≠ 0 ∧
    (ef_cp_init ⟨4096, 0, 3, 0, 0⟩ 0 ⟨[], [], none⟩).2.cph = none ∧
    (ef_cp_init ⟨4096, 0, 3, 0, 0⟩ 0 ⟨[], [], none⟩).2.held = [] ∧
    released (newCalls ⟨[], [], none⟩ (ef_cp_init ⟨4096, 0, 3, 0, 0⟩ 0 ⟨[], [], none⟩).2) =
      [.cplane 4096, .fd 3, .mem 4096] :=
  have h := (ef_cp_init_atomic ⟨4096, 0, 3, 0, 0⟩ 0 ⟨[], [], none⟩).1 (by decide)
  ⟨by decide, h.1, h.2.2.1, by decide⟩

/-- C9: with non-zero flags `ef_cp_init` returns `-EINVAL` and does nothing
else: no call to `calloc`, `oo_fd_open` or `oo_cp_create` is made, nothing is
acquired and `*cph` is not written. -/
theorem ef_cp_init_flags (e : Env) (flags : Nat) (w : World) (h : flags ≠ 0) :
    (ef_cp_init e flags w).1 = -EINVAL ∧ (ef_cp_init e flags w).2 = w ∧
    newCalls w (ef_cp_init e flags w).2 = [] := by
  simp [ef_cp_init, h, newCalls]

/-- C9 at a concrete call: flags = 1, every collaborator willing. -/
theorem ef_cp_init_flags_witness :
    (1 : Nat) ≠ 0 ∧ (ef_cp_init ⟨4096, 0, 3, 0, 8192⟩ 1 ⟨[], [], none⟩).1 = -EINVAL ∧
    (ef_cp_init ⟨4096, 0, 3, 0, 8192⟩ 1 ⟨[], [], none⟩).2 = ⟨[], [], none⟩ :=
  have h := ef_cp_init_flags ⟨4096, 0, 3, 0, 8192⟩ 1 ⟨[], [], none⟩ (by decide)
  ⟨by decide, h.1, h.2.1⟩

/-- C10 fails on the code: after a successful `ef_cp_init` followed by
`ef_cp_fini` on the handle it produced, the `llap_extra` block is still held;
`ef_cp_fini` never frees it. -/
theorem ef_cp_fini_leaks_llap_extra :
    (ef_cp_init ⟨4096, 0, 3, 0, 8192⟩ 0 ⟨[], [], none⟩).1 = 0 ∧
    (ef_cp_init ⟨4096, 0, 3, 0, 8192⟩ 0 ⟨[], [], none⟩).2.cph = some ⟨4096, 3, 8192⟩ ∧
    (ef_cp_init ⟨4096, 0, 3, 0, 8192⟩ 0 ⟨[], [], none⟩).2.held =
      [.mem 8192, .cplane 4096, .fd 3, .mem 4096] ∧
    (ef_cp_fini ⟨4096, 3, 8192⟩ (ef_cp_init ⟨4096, 0, 3, 0, 8192⟩ 0 ⟨[], [], none⟩).2).held =
      [.mem 8192] := by
  decide

/-! ## Theorems: event delivery -/

theorem deliverAll_sessions (d : Device) (evs : List (efx_auxiliary_event × Int)) :
    (deliverAll d evs).sessions = d.sessions.map (fun s =>
      { s with invoked := s.invoked ++
          evs.filter (fun e => subscribed s.events_requested e.1.type) }) := by
  induction evs generalizing d with
  | nil => simp [deliverAll]
  | cons e evs ih =>
    obtain ⟨ev, budget⟩ := e
    rw [deliverAll, ih]
    simp only [deliver, List.map_map]
    apply List.map_congr_left
    intro s _
    by_cases hsub : subscribed s.events_requested ev.type = true
    · simp [Session.deliver, hsub, List.filter_cons]
    · simp [Session.deliver, hsub, List.filter_cons]

/-- C4: after any sequence of `deliver` calls, the callback of every open
session has been invoked exactly for the delivered events whose type is in the
mask of the session, once each and in the order of delivery: its invocation
record grows by the subsequence of subscribed events and nothing else, and
the set of sessions, their masks and what they own are unchanged. -/
theorem deliver_exactly_once_in_order (d : Device) (evs : List (efx_auxiliary_event × Int)) :
    (deliverAll d evs).sessions = d.sessions.map (fun s =>
      { s with invoked := s.invoked ++
          evs.filter (fun e => subscribed s.events_requested e.1.type) }) ∧
    (deliverAll d evs).pool = d.pool :=
  ⟨deliverAll_sessions d evs, by
    induction evs generalizing d with
    | nil => rfl
    | cons e evs ih => obtain ⟨ev, budget⟩ := e; rw [deliverAll, ih]; rfl⟩

/-! ## Theorems: `queues_free` -/

/-- C3: when some index of the batch is not owned by the calling session,
`queues_free` returns `InvalidArgument` and the device (pool bitmaps and
every session) is exactly as before: nothing of the batch is freed. -/
theorem queues_free_unowned (d : Device) (h : Nat) (s : Session) (sets : List QueueSet)
    (hs : d.session? h = some s) (hu : hasUnowned s.owned sets) :
    queues_free d h sets = (.error .InvalidArgument, d) := by
  obtain ⟨q, hq, k, i, hget, hown⟩ := hu
  have hall : allOwned s.owned sets = false := by
    rw [Bool.eq_false_iff]
    intro hall
    rw [allOwned, List.all_eq_true] at hall
    have hk := hall q hq
    rw [List.all_eq_true] at hk
    have hki := hk k (by cases k <;> simp)
    rw [hget] at hki
    simp only at hki
    rw [hown] at hki
    exact Bool.noConfusion hki
  unfold queues_free
  rw [hs]
  simp only [hall, Bool.false_eq_true, if_false]

/-! ## Theorems: the availability bitmaps -/

theorem isFree_take (p : IndexPool) (i j : Nat) :
    (p.take i).isFree j = (p.isFree j ^^ decide (i = j)) := by
  simp only [IndexPool.take, IndexPool.isFree]
  rw [Nat.testBit_xor, Nat.one_shiftLeft, Nat.testBit_two_pow]

theorem isFree_give (p : IndexPool) (i j : Nat) :
    (p.give i).isFree j = (p.isFree j || decide (i = j)) := by
  simp only [IndexPool.give, IndexPool.isFree]
  rw [Nat.testBit_or, Nat.one_shiftLeft, Nat.testBit_two_pow]

theorem isFree_take_of_isFree (p : IndexPool) (i j : Nat) (hi : p.isFree i = true) :
    (p.take i).isFree j = (p.isFree j && decide (i ≠ j)) := by
  rw [isFree_take]
  by_cases hij : i = j
  · subst hij; simp [hi]
  · simp [hij]

theorem firstFree_some (p : IndexPool) (i : Nat) (h : p.firstFree = some i) :
    i < p.lim ∧ p.isFree i = true := by
  unfold IndexPool.firstFree at h
  exact ⟨List.mem_range.mp (List.mem_of_find?_eq_some h), List.find?_some h⟩

theorem firstFree_none (p : IndexPool) (h : p.firstFree = none) (i : Nat) (hi : i < p.lim) :
    p.isFree i = false := by
  unfold IndexPool.firstFree at h
  rw [List.find?_eq_none] at h
  simpa using h i (List.mem_range.mpr hi)

/-! ## Theorems: the batch decision of `queues_alloc` -/

theorem owns_append (a b : List QueueSet) (k : Kind) (i : Nat) :
    owns (a ++ b) k i = (owns a k i || owns b k i) := by
  simp [owns, List.any_append]

theorem owns_singleton (q : QueueSet) (k : Kind) (i : Nat) :
    owns [q] k i = (q.get k == some i) := by
  simp [owns]

/-- What `allocSet` does is what `allocOne` does for each kind. -/
theorem allocSet_get (mine : Kind → Nat → Bool) (pool pool' : ResourcePool) (r : RequestSet)
    (q : QueueSet) (h : allocSet mine pool r = some (pool', q)) (k : Kind) :
    allocOne (mine k) (pool.get k) (r.get k) = some (pool'.get k, q.get k) := by
  unfold allocSet at h
  cases h1 : allocOne (mine .evq) pool.evq r.evq with
  | none => simp [h1] at h
  | some a1 =>
    cases h2 : allocOne (mine .txq) pool.txq r.txq with
    | none => simp [h1, h2] at h
    | some a2 =>
      cases h3 : allocOne (mine .rxq) pool.rxq r.rxq with
      | none => simp [h1, h2, h3] at h
      | some a3 =>
        cases h4 : allocOne (mine .irq) pool.irq r.irq with
        | none => simp [h1, h2, h3, h4] at h
        | some a4 =>
          simp only [h1, h2, h3, h4, Option.some.injEq, Prod.mk.injEq] at h
          obtain ⟨hp, hq⟩ := h
          subst hp hq
          cases k <;> simp [ResourcePool.get, RequestSet.get, QueueSet.get, h1, h2, h3, h4]

theorem allKinds_all (f : Kind → Bool) :
    [Kind.evq, Kind.txq, Kind.rxq, Kind.irq].all f = true ↔ ∀ k, f k = true := by
  constructor
  · intro h k
    rw [List.all_eq_true] at h
    exact h k (by cases k <;> simp)
  · intro h
    rw [List.all_eq_true]
    exact fun k _ => h k

/-- When every kind has an answer, the set has one. -/
theorem allocSet_of_get (mine : Kind → Nat → Bool) (pool : ResourcePool) (r : RequestSet)
    (q : QueueSet) (h : ∀ k, ∃ p', allocOne (mine k) (pool.get k) (r.get k) = some (p', q.get k)) :
    ∃ pool', allocSet mine pool r = some (pool', q) := by
  obtain ⟨e, he⟩ := h .evq
  obtain ⟨t, ht⟩ := h .txq
  obtain ⟨x, hx⟩ := h .rxq
  obtain ⟨i, hi⟩ := h .irq
  simp only [ResourcePool.get, RequestSet.get, QueueSet.get] at he ht hx hi
  exact ⟨{ evq := e, txq := t, rxq := x, irq := i }, by simp [allocSet, he, ht, hx, hi]⟩

/-- The exact effect of one decision on the scratch bitmap: the range bound
stays, and the answered index, if any, is no longer free. -/
theorem allocOne_effect (mine : Nat → Bool) (p p' : IndexPool) (r : Request) (v : Option Nat)
    (h : allocOne mine p r = some (p', v)) :
    p'.lim = p.lim ∧ ∀ j, p'.isFree j = (p.isFree j && !(v == some j)) := by
  cases r with
  | any =>
    simp only [allocOne] at h
    cases hff : p.firstFree with
    | none => simp [hff] at h
    | some i =>
      simp only [hff, Option.some.injEq, Prod.mk.injEq] at h
      obtain ⟨hp, hv⟩ := h
      subst hp hv
      refine ⟨rfl, fun j => ?_⟩
      rw [isFree_take_of_isFree p i j (firstFree_some p i hff).2]
      by_cases hij : i = j <;> simp [hij]
  | specific i =>
    simp only [allocOne] at h
    by_cases hi : p.isFree i = true
    · rw [if_pos hi] at h
      simp only [Option.some.injEq, Prod.mk.injEq] at h
      obtain ⟨hp, hv⟩ := h
      subst hp hv
      refine ⟨rfl, fun j => ?_⟩
      rw [isFree_take_of_isFree p i j hi]
      by_cases hij : i = j <;> simp [hij]
    · by_cases hm : mine i = true
      · rw [if_neg hi, if_pos hm] at h
        simp only [Option.some.injEq, Prod.mk.injEq] at h
        obtain ⟨hp, hv⟩ := h
        subst hp hv
        refine ⟨rfl, fun j => ?_⟩
        by_cases hij : i = j
        · subst hij; simp [hi]
        · simp [hij]
      · rw [if_neg hi, if_neg hm] at h
        cases h
  | skip =>
    simp only [allocOne, Option.some.injEq, Prod.mk.injEq] at h
    obtain ⟨hp, hv⟩ := h
    subst hp hv
    exact ⟨rfl, fun j => by simp⟩

/-- On a scratch bitmap that agrees with the pool before the call, one decision
has the answer `v` exactly when `v` is the first-fit answer to the request. -/
theorem allocOne_firstFit (pool0 : ResourcePool) (owned got : List QueueSet) (k : Kind)
    (p : IndexPool) (r : Request) (v : Option Nat)
    (hlim : p.lim = (pool0.get k).lim)
    (hfree : ∀ j, p.isFree j = available pool0 got k j)
    (hgot : ∀ i, owns got k i = true → (pool0.get k).isFree i = true ∨ owns owned k i = true) :
    (∃ p', allocOne (owns (owned ++ got) k) p r = some (p', v)) ↔
      answersFirstFit pool0 owned got k r v = true := by
  cases r with
  | any =>
    have hF : p.firstFree = (List.range (pool0.get k).lim).find? (available pool0 got k) := by
      unfold IndexPool.firstFree
      rw [hlim]
      congr 1
      exact funext hfree
    simp only [allocOne, answersFirstFit, ← hF]
    cases hff : p.firstFree with
    | none => cases v <;> simp
    | some i =>
      cases v with
      | none => simp
      | some j =>
        simp only [Option.some.injEq, Prod.mk.injEq, Option.isSome_some, Bool.true_and,
          beq_iff_eq]
        constructor
        · rintro ⟨p', _, h⟩; exact h.symm
        · intro h; exact ⟨p.take i, rfl, h.symm⟩
  | specific i =>
    simp only [allocOne, answersFirstFit, answers, Bool.and_eq_true, Bool.or_eq_true,
      beq_iff_eq]
    by_cases hi : p.isFree i = true
    · have h0 : (pool0.get k).isFree i = true := by
        have := hfree i
        rw [hi, available] at this
        simpa using (Bool.and_eq_true _ _ ▸ this.symm : _ ∧ _).1
      rw [if_pos hi]
      simp only [Option.some.injEq, Prod.mk.injEq]
      constructor
      · rintro ⟨p', _, h⟩; exact ⟨h.symm, Or.inl h0⟩
      · rintro ⟨h, _⟩; exact ⟨p.take i, rfl, h.symm⟩
    · by_cases hm : owns (owned ++ got) k i = true
      · rw [if_neg hi, if_pos hm]
        simp only [Option.some.injEq, Prod.mk.injEq]
        have hok : (pool0.get k).isFree i = true ∨ owns owned k i = true := by
          rw [owns_append, Bool.or_eq_true] at hm
          rcases hm with h | h
          · exact Or.inr h
          · exact hgot i h
        constructor
        · rintro ⟨p', _, h⟩; exact ⟨h.symm, hok⟩
        · rintro ⟨h, _⟩; exact ⟨p, rfl, h.symm⟩
      · rw [if_neg hi, if_neg hm]
        rw [owns_append, Bool.or_eq_true, not_or] at hm
        constructor
        · rintro ⟨p', h⟩; cases h
        · rintro ⟨_, h⟩
          exfalso
          rcases h with h | h
          · have := hfree i
            rw [available, h] at this
            have hg : owns got k i = false := by simpa using hm.2
            rw [hg] at this
            exact hi (by simpa using this)
          · exact hm.1 h
  | skip =>
    simp only [allocOne, answersFirstFit, answers, Option.some.injEq, Prod.mk.injEq]
    constructor
    · rintro ⟨p', _, h⟩; rw [← h]; rfl
    · intro h
      cases v with
      | none => exact ⟨p, rfl, rfl⟩
      | some j => cases h

/-- A first-fit answer is a legitimate answer. -/
theorem answers_of_answersFirstFit (pool0 : ResourcePool) (owned got : List QueueSet) (k : Kind)
    (r : Request) (v : Option Nat) (h : answersFirstFit pool0 owned got k r v = true) :
    answers pool0 owned got k r v = true := by
  cases r with
  | any =>
    cases v with
    | none => simp [answersFirstFit] at h
    | some i =>
      simp only [answersFirstFit, Option.isSome_some, Bool.true_and, beq_iff_eq] at h
      have hmem := List.mem_range.mp (List.mem_of_find?_eq_some h.symm)
      have hav := List.find?_some h.symm
      simp [answers, hmem, hav]
  | specific i => simpa [answersFirstFit] using h
  | skip => simpa [answersFirstFit] using h

/-- An index given as a legitimate answer was free or the caller's. -/
theorem answers_some (pool0 : ResourcePool) (owned got : List QueueSet) (k : Kind)
    (r : Request) (i : Nat) (h : answers pool0 owned got k r (some i) = true) :
    (pool0.get k).isFree i = true ∨ owns owned k i = true := by
  cases r with
  | any =>
    simp only [answers, available, Bool.and_eq_true] at h
    exact Or.inl h.2.1
  | specific j =>
    simp only [answers, Bool.and_eq_true, Bool.or_eq_true, beq_iff_eq, Option.some.injEq] at h
    obtain ⟨hij, hok⟩ := h
    subst hij
    exact hok
  | skip => simp [answers] at h

/-- One decided set keeps the scratch state in agreement with the pool before
the call. -/
theorem planInv_step (pool0 : ResourcePool) (owned : List QueueSet) (pool pool1 : ResourcePool)
    (got : List QueueSet) (r : RequestSet) (q : QueueSet) (hinv : PlanInv pool0 owned pool got)
    (hset : allocSet (owns (owned ++ got)) pool r = some (pool1, q)) :
    PlanInv pool0 owned pool1 (got ++ [q]) := by
  intro k
  obtain ⟨hlim, hfree, hgot⟩ := hinv k
  have hk := allocSet_get _ _ _ _ _ hset k
  obtain ⟨elim, efree⟩ := allocOne_effect _ _ _ _ _ hk
  have hff := (allocOne_firstFit pool0 owned got k _ _ _ hlim hfree hgot).mp ⟨_, hk⟩
  have hans := answers_of_answersFirstFit _ _ _ _ _ _ hff
  refine ⟨elim.trans hlim, ?_, ?_⟩
  · intro j
    rw [efree j, hfree j]
    simp only [available, owns_append, owns_singleton, Bool.not_or, Bool.and_assoc]
  · intro i hi
    rw [owns_append, owns_singleton, Bool.or_eq_true, beq_iff_eq] at hi
    rcases hi with h | h
    · exact hgot i h
    · rw [h] at hans
      exact answers_some _ _ _ _ _ _ hans

/-- A decided batch extends the sets decided before it by one set for each request. -/
theorem allocBatch_prefix (owned : List QueueSet) (rs : List RequestSet) (pool : ResourcePool)
    (got : List QueueSet) (res : ResourcePool × List QueueSet)
    (h : allocBatch owned pool got rs = some res) :
    ∃ new, res.2 = got ++ new ∧ new.length = rs.length := by
  induction rs generalizing pool got with
  | nil =>
    simp only [allocBatch, Option.some.injEq] at h
    subst h
    exact ⟨[], by simp, rfl⟩
  | cons r rs ih =>
    unfold allocBatch at h
    cases hset : allocSet (owns (owned ++ got)) pool r with
    | none => simp [hset] at h
    | some a =>
      obtain ⟨pool1, q1⟩ := a
      simp only [hset] at h
      obtain ⟨new, hnew, hlen⟩ := ih pool1 (got ++ [q1]) h
      exact ⟨q1 :: new, by rw [hnew, List.append_assoc, List.singleton_append], by simp [hlen]⟩

/-- The batch decision on the scratch pool refines first fit: it ends with the
sets `new` exactly when `new` is the first-fit answer to the requests. -/
theorem allocBatch_firstFit (pool0 : ResourcePool) (owned : List QueueSet)
    (rs : List RequestSet) (pool : ResourcePool) (got new : List QueueSet)
    (hinv : PlanInv pool0 owned pool got) :
    (∃ pool', allocBatch owned pool got rs = some (pool', got ++ new)) ↔
      decidedFrom (answersFirstFit pool0 owned) got rs new = true := by
  induction rs generalizing pool got new with
  | nil =>
    cases new with
    | nil => simp [allocBatch, decidedFrom]
    | cons q qs => simp [allocBatch, decidedFrom]
  | cons r rs ih =>
    cases new with
    | nil =>
      simp only [decidedFrom, Bool.false_eq_true, iff_false, not_exists]
      intro pool' h
      obtain ⟨new, hnew, hlen⟩ := allocBatch_prefix _ _ _ _ _ h
      simp only [List.append_nil] at hnew
      have := congrArg List.length hnew
      simp [hlen] at this
    | cons q qs =>
      simp only [decidedFrom, Bool.and_eq_true, allKinds_all]
      constructor
      · rintro ⟨pool', h⟩
        unfold allocBatch at h
        cases hset : allocSet (owns (owned ++ got)) pool r with
        | none => simp [hset] at h
        | some a =>
          obtain ⟨pool1, q1⟩ := a
          simp only [hset] at h
          obtain ⟨new, hnew, _⟩ := allocBatch_prefix _ _ _ _ _ h
          simp only [List.append_assoc, List.singleton_append] at hnew
          have hcons := List.append_cancel_left hnew
          simp only [List.cons.injEq] at hcons
          obtain ⟨hq, _⟩ := hcons
          subst hq
          refine ⟨fun k => ?_, ?_⟩
          · obtain ⟨hlim, hfree, hgot⟩ := hinv k
            exact (allocOne_firstFit pool0 owned got k _ _ _ hlim hfree hgot).mp
              ⟨_, allocSet_get _ _ _ _ _ hset k⟩
          · refine (ih pool1 (got ++ [q]) qs (planInv_step _ _ _ _ _ _ _ hinv hset)).mp ⟨pool', ?_⟩
            rw [h, List.append_assoc, List.singleton_append]
      · rintro ⟨hall, hrest⟩
        have hone : ∀ k, ∃ p', allocOne (owns (owned ++ got) k) (pool.get k) (r.get k) =
            some (p', q.get k) := by
          intro k
          obtain ⟨hlim, hfree, hgot⟩ := hinv k
          exact (allocOne_firstFit pool0 owned got k _ _ _ hlim hfree hgot).mpr (hall k)
        obtain ⟨pool1, hset⟩ := allocSet_of_get _ _ _ _ hone
        obtain ⟨pool', hb⟩ :=
          (ih pool1 (got ++ [q]) qs (planInv_step _ _ _ _ _ _ _ hinv hset)).mpr hrest
        refine ⟨pool', ?_⟩
        rw [allocBatch]
        simp only [hset]
        rw [hb, List.append_assoc, List.singleton_append]

/-- Before anything is decided the scratch pool is the pool itself. -/
theorem planInv_start (pool0 : ResourcePool) (owned : List QueueSet) :
    PlanInv pool0 owned pool0 [] := by
  intro k
  exact ⟨rfl, fun j => by simp [available, owns], fun i hi => by simp [owns] at hi⟩

/-- Answers that pass the stricter rule pass the laxer one. -/
theorem decidedFrom_mono (a b : List QueueSet → Kind → Request → Option Nat → Bool)
    (hab : ∀ e k r v, a e k r v = true → b e k r v = true) (rs : List RequestSet)
    (earlier out : List QueueSet) (h : decidedFrom a earlier rs out = true) :
    decidedFrom b earlier rs out = true := by
  induction rs generalizing earlier out with
  | nil => cases out <;> simp [decidedFrom] at h ⊢
  | cons r rs ih =>
    cases out with
    | nil => simp [decidedFrom] at h
    | cons q qs =>
      simp only [decidedFrom, Bool.and_eq_true, allKinds_all] at h ⊢
      exact ⟨fun k => hab _ _ _ _ (h.1 k), ih _ _ h.2⟩

/-- The first-fit answer to a batch satisfies the batch. -/
theorem satisfies_of_isFirstFit (pool : ResourcePool) (owned : List QueueSet)
    (reqs : List RequestSet) (out : List QueueSet) (h : isFirstFit pool owned reqs out = true) :
    satisfies pool owned reqs out = true :=
  decidedFrom_mono _ _ (fun e k r v => answers_of_answersFirstFit pool owned e k r v) _ _ _ h

/-- What `queues_alloc` returns for an open session is `.ok out` exactly when
`out` is the first-fit answer to the batch. -/
theorem queues_alloc_ok_iff (d : Device) (h : Nat) (s : Session) (reqs : List RequestSet)
    (hs : d.session? h = some s) (out : List QueueSet) :
    (queues_alloc d h reqs).1 = .ok out ↔ isFirstFit d.pool s.owned reqs out = true := by
  have hiff := allocBatch_firstFit d.pool s.owned reqs d.pool [] out (planInv_start _ _)
  simp only [List.nil_append] at hiff
  rw [isFirstFit, ← hiff]
  unfold queues_alloc
  cases hres : allocBatch s.owned d.pool [] reqs with
  | none => simp [hs, hres]
  | some res =>
    obtain ⟨pool', got⟩ := res
    simp only [hs, hres, Result.ok.injEq, Option.some.injEq, Prod.mk.injEq]
    constructor
    · intro hg; exact ⟨pool', rfl, hg⟩
    · rintro ⟨_, _, hg⟩; exact hg

/-- C1: `queues_alloc` is all or nothing. For an open session, when the batch
cannot be satisfied (no choice of indices answers every requested
sub-resource) the call fails with `ResourceExhausted` and the device,
free-index bitmaps included, is exactly as before; the same holds when some
sub-resource has no first-fit answer, which is exactly when the call does not
succeed; and whenever the call fails at all, it fails with `ResourceExhausted`
and leaves the device exactly as before. -/
theorem queues_alloc_all_or_nothing (d : Device) (h : Nat) (s : Session)
    (reqs : List RequestSet) (hs : d.session? h = some s) :
    (cannotSatisfy d.pool s.owned reqs →
      queues_alloc d h reqs = (.error .ResourceExhausted, d)) ∧
    (cannotSatisfyFirstFit d.pool s.owned reqs ↔
      queues_alloc d h reqs = (.error .ResourceExhausted, d)) ∧
    (∀ out, (queues_alloc d h reqs).1 = .ok out →
      isFirstFit d.pool s.owned reqs out = true ∧ satisfies d.pool s.owned reqs out = true) ∧
    (∀ e, (queues_alloc d h reqs).1 = .error e →
      e = .ResourceExhausted ∧ (queues_alloc d h reqs).2 = d) := by
  have hfail : ∀ e, (queues_alloc d h reqs).1 = .error e →
      queues_alloc d h reqs = (.error .ResourceExhausted, d) := by
    intro e he
    unfold queues_alloc at he ⊢
    cases hres : allocBatch s.owned d.pool [] reqs with
    | none => simp only [hs, hres]
    | some res => simp [hs, hres] at he
  have hcases : (∃ out, (queues_alloc d h reqs).1 = .ok out) ∨
      queues_alloc d h reqs = (.error .ResourceExhausted, d) := by
    cases hr : (queues_alloc d h reqs).1 with
    | ok out => exact Or.inl ⟨out, rfl⟩
    | error e => exact Or.inr (hfail e hr)
  have hff : cannotSatisfyFirstFit d.pool s.owned reqs →
      queues_alloc d h reqs = (.error .ResourceExhausted, d) := by
    intro hc
    rcases hcases with ⟨out, hok⟩ | herr
    · have := (queues_alloc_ok_iff d h s reqs hs out).mp hok
      rw [hc out] at this
      exact Bool.noConfusion this
    · exact herr
  refine ⟨?_, ⟨hff, ?_⟩, ?_, ?_⟩
  · intro hc
    apply hff
    intro out
    cases hout : isFirstFit d.pool s.owned reqs out with
    | false => rfl
    | true =>
      have := satisfies_of_isFirstFit _ _ _ _ hout
      rw [hc out] at this
      exact Bool.noConfusion this
  · intro herr out
    cases hout : isFirstFit d.pool s.owned reqs out with
    | false => rfl
    | true =>
      have hok := (queues_alloc_ok_iff d h s reqs hs out).mpr hout
      rw [herr] at hok
      cases hok
  · intro out hok
    have hfit := (queues_alloc_ok_iff d h s reqs hs out).mp hok
    exact ⟨hfit, satisfies_of_isFirstFit _ _ _ _ hfit⟩
  · intro e he
    have := hfail e he
    rw [this] at he ⊢
    simp only [Result.error.injEq] at he
    exact ⟨he.symm, rfl⟩

/-! ## Theorems: `close` -/

theorem isFree_giveOpt (p : IndexPool) (v : Option Nat) (i : Nat) :
    (p.giveOpt v).isFree i = (p.isFree i || v == some i) := by
  cases v with
  | none => simp [IndexPool.giveOpt]
  | some j =>
    rw [IndexPool.giveOpt, isFree_give]
    by_cases hji : j = i <;> simp [hji]

theorem isFree_giveSet (pool : ResourcePool) (q : QueueSet) (k : Kind) (i : Nat) :
    ((pool.giveSet q).get k).isFree i = ((pool.get k).isFree i || q.get k == some i) := by
  cases k <;> simp [ResourcePool.giveSet, ResourcePool.get, QueueSet.get, isFree_giveOpt]

theorem isFree_giveAll (sets : List QueueSet) (pool : ResourcePool) (k : Kind) (i : Nat) :
    ((pool.giveAll sets).get k).isFree i = ((pool.get k).isFree i || owns sets k i) := by
  induction sets generalizing pool with
  | nil => simp [ResourcePool.giveAll, owns]
  | cons q qs ih =>
    have hstep : pool.giveAll (q :: qs) = (pool.giveSet q).giveAll qs := rfl
    rw [hstep, ih, isFree_giveSet]
    simp [owns, Bool.or_assoc]

theorem session?_close_ne (d : Device) (h h' : Nat) (hne : h' ≠ h) :
    (devops_close d h).2.session? h' = d.session? h' := by
  have hfilter : ∀ l : List Session,
      (l.filter (fun x => x.handle != h)).find? (fun s => s.handle == h') =
        l.find? (fun s => s.handle == h') := by
    intro l
    induction l with
    | nil => rfl
    | cons a t ih =>
      by_cases hah : a.handle = h
      · have hne' : ¬ a.handle = h' := by rw [hah]; exact fun hh => hne hh.symm
        simp [List.filter_cons, List.find?_cons, hah, hne', ih, Ne.symm hne]
      · by_cases hah' : a.handle = h'
        · simp [List.filter_cons, List.find?_cons, hah, hah', hne]
        · simp [List.filter_cons, List.find?_cons, hah, hah', ih]
  unfold devops_close
  cases hs : d.session? h with
  | none => rfl
  | some s => simp only [Device.session?]; exact hfilter d.sessions

theorem session?_close_self (d : Device) (h : Nat) (s : Session) (hs : d.session? h = some s) :
    (devops_close d h).2.session? h = none := by
  have hc : (devops_close d h).2.sessions = d.sessions.filter (fun x => x.handle != h) := by
    simp only [devops_close, hs]
  rw [Device.session?, hc, List.find?_eq_none]
  intro x hx
  have := (List.mem_filter.mp hx).2
  simpa using this

/-- A request for exactly one sub-resource that is free or already the caller's
is satisfied with that sub-resource. -/
theorem allocOne_ofIndex (mine : Nat → Bool) (p : IndexPool) (v : Option Nat)
    (h : ∀ i, v = some i → p.isFree i = true ∨ mine i = true) :
    ∃ p', allocOne mine p (.ofIndex v) = some (p', v) ∧
      ∀ i, p.isFree i = true → p'.isFree i = true ∨ v = some i := by
  cases v with
  | none => exact ⟨p, rfl, fun i hi => Or.inl hi⟩
  | some j =>
    by_cases hj : p.isFree j = true
    · refine ⟨p.take j, by simp [Request.ofIndex, allocOne, hj], ?_⟩
      intro i hi
      by_cases hji : j = i
      · exact Or.inr (by rw [hji])
      · left; rw [isFree_take_of_isFree p j i hj, hi]; simp [hji]
    · have hm : mine j = true := (h j rfl).resolve_left hj
      exact ⟨p, by simp [Request.ofIndex, allocOne, hj, hm], fun i hi => Or.inl hi⟩

theorem allocSet_toRequest (mine : Kind → Nat → Bool) (pool : ResourcePool) (q : QueueSet)
    (h : ∀ k i, q.get k = some i → (pool.get k).isFree i = true ∨ mine k i = true) :
    ∃ pool', allocSet mine pool q.toRequest = some (pool', q) ∧
      ∀ k i, (pool.get k).isFree i = true → (pool'.get k).isFree i = true ∨ q.get k = some i := by
  obtain ⟨e, he, he'⟩ := allocOne_ofIndex (mine .evq) pool.evq q.evq (h .evq)
  obtain ⟨t, ht, ht'⟩ := allocOne_ofIndex (mine .txq) pool.txq q.txq (h .txq)
  obtain ⟨x, hx, hx'⟩ := allocOne_ofIndex (mine .rxq) pool.rxq q.rxq (h .rxq)
  obtain ⟨r, hr, hr'⟩ := allocOne_ofIndex (mine .irq) pool.irq q.irq (h .irq)
  refine ⟨{ evq := e, txq := t, rxq := x, irq := r }, ?_, ?_⟩
  · simp [allocSet, QueueSet.toRequest, he, ht, hx, hr]
  · intro k i hi
    cases k
    · exact he' i hi
    · exact ht' i hi
    · exact hx' i hi
    · exact hr' i hi

theorem allocBatch_toRequest (owned sets : List QueueSet) (pool : ResourcePool)
    (got : List QueueSet)
    (h : ∀ k i, owns sets k i = true →
      (pool.get k).isFree i = true ∨ owns (owned ++ got) k i = true) :
    ∃ pool', allocBatch owned pool got (sets.map QueueSet.toRequest) = some (pool', got ++ sets) := by
  induction sets generalizing pool got with
  | nil => exact ⟨pool, by simp [allocBatch]⟩
  | cons q qs ih =>
    have hq : ∀ k i, q.get k = some i →
        (pool.get k).isFree i = true ∨ owns (owned ++ got) k i = true := by
      intro k i hki
      exact h k i (by simp [owns, hki])
    obtain ⟨pool1, hset, hfree⟩ := allocSet_toRequest (owns (owned ++ got)) pool q hq
    have hrest : ∀ k i, owns qs k i = true →
        (pool1.get k).isFree i = true ∨ owns (owned ++ (got ++ [q])) k i = true := by
      intro k i hki
      have hin : owns (q :: qs) k i = true := by
        simp only [owns, List.any_cons, Bool.or_eq_true] at hki ⊢
        exact Or.inr hki
      rw [← List.append_assoc, owns_append, owns_singleton]
      rcases h k i hin with hf | ho
      · rcases hfree k i hf with hf1 | hq1
        · exact Or.inl hf1
        · right; simp [hq1]
      · right; simp [ho]
    obtain ⟨pool2, hbatch⟩ := ih pool1 (got ++ [q]) hrest
    refine ⟨pool2, ?_⟩
    simp only [List.map_cons, allocBatch, hset, hbatch, List.append_assoc, List.singleton_append]

/-- C5: `close` frees every queue set the session still owns. After closing an
open session, every index it owned is free in the pool, its handle is no longer
open, and a `queues_alloc` by a different open session that requests exactly
those indices succeeds and is given exactly them. -/
theorem close_frees_owned (d : Device) (h h' : Nat) (s s' : Session)
    (hs : d.session? h = some s) (hs' : d.session? h' = some s') (hne : h' ≠ h) :
    (devops_close d h).1 = .ok () ∧
    (∀ k i, owns s.owned k i = true → (((devops_close d h).2.pool).get k).isFree i = true) ∧
    (devops_close d h).2.session? h = none ∧
    (queues_alloc (devops_close d h).2 h' (s.owned.map QueueSet.toRequest)).1 = .ok s.owned := by
  have hfree : ∀ k i, owns s.owned k i = true →
      (((devops_close d h).2.pool).get k).isFree i = true := by
    intro k i hki
    simp only [devops_close, hs]
    rw [isFree_giveAll, hki, Bool.or_true]
  refine ⟨by simp [devops_close, hs], hfree, session?_close_self d h s hs, ?_⟩
  have hopen : (devops_close d h).2.session? h' = some s' := by
    rw [session?_close_ne d h h' hne, hs']
  obtain ⟨pool', hbatch⟩ := allocBatch_toRequest s'.owned s.owned (devops_close d h).2.pool []
    (fun k i hki => Or.inl (hfree k i hki))
  simp only [queues_alloc, hopen, hbatch, List.nil_append]

/-! ## The operations on the example device -/

/-- C1 on the example device: event queue 2 is the only free one and session 2
asks for it by index and then for any event queue; no choice of indices
satisfies the batch, the call fails with `ResourceExhausted` and the device is
unchanged. -/
theorem queues_alloc_all_or_nothing_witness :
    exampleDevice.session? 2 = some exampleSession2 ∧
    cannotSatisfy exampleDevice.pool exampleSession2.owned
      [⟨.specific 2, .skip, .skip, .skip⟩, ⟨.any, .skip, .any, .skip⟩] ∧
    queues_alloc exampleDevice 2
      [⟨.specific 2, .skip, .skip, .skip⟩, ⟨.any, .skip, .any, .skip⟩] =
      (.error .ResourceExhausted, exampleDevice) :=
  have hc : cannotSatisfy exampleDevice.pool exampleSession2.owned
      [⟨.specific 2, .skip, .skip, .skip⟩, ⟨.any, .skip, .any, .skip⟩] := by
    intro out
    rw [Bool.eq_false_iff]
    intro hsat
    match out, hsat with
    | [], hsat => simp [satisfies, decidedFrom] at hsat
    | [_], hsat => simp [satisfies, decidedFrom] at hsat
    | _ :: _ :: _ :: _, hsat => simp [satisfies, decidedFrom] at hsat
    | [q1, q2], hsat =>
      simp only [satisfies, decidedFrom, Bool.and_eq_true, allKinds_all, Bool.and_true,
        List.nil_append] at hsat
      have h1 := hsat.1 .evq
      have h2 := hsat.2 .evq
      simp only [RequestSet.get, QueueSet.get, answers, Bool.and_eq_true, beq_iff_eq] at h1
      cases hq2 : q2.evq with
      | none => simp [RequestSet.get, QueueSet.get, answers, hq2] at h2
      | some i =>
        simp only [RequestSet.get, QueueSet.get, answers, hq2, available, owns, List.any_cons,
          List.any_nil, Bool.or_false, h1.1, Bool.and_eq_true, decide_eq_true_eq,
          Bool.not_eq_true', beq_eq_false_iff_ne, ne_eq, Option.some.injEq] at h2
        obtain ⟨hlt, hfree, hne⟩ := h2
        have hlim : i < 4 := hlt
        interval_cases i
        · exact absurd hfree (by decide)
        · exact absurd hfree (by decide)
        · exact hne rfl
        · exact absurd hfree (by decide)
  ⟨by decide, hc,
    (queues_alloc_all_or_nothing exampleDevice 2 exampleSession2 _ (by decide)).1 hc⟩

/-- C3 on the example device: session 2 frees an event queue owned by session 1. -/
theorem queues_free_unowned_witness :
    exampleDevice.session? 2 = some exampleSession2 ∧
    hasUnowned exampleSession2.owned [⟨some 1, none, none, none⟩] ∧
    queues_free exampleDevice 2 [⟨some 1, none, none, none⟩] =
      (.error .InvalidArgument, exampleDevice) :=
  have hu : hasUnowned exampleSession2.owned [⟨some 1, none, none, none⟩] :=
    ⟨_, List.mem_singleton.mpr rfl, .evq, 1, rfl, rfl⟩
  ⟨by decide, hu, queues_free_unowned exampleDevice 2 exampleSession2 _ (by decide) hu⟩

/-- C5 on the example device: session 1 is closed, then session 2 asks for the
two queue sets session 1 owned and gets them. -/
theorem close_frees_owned_witness :
    exampleDevice.session? 1 = some exampleSession1 ∧
    exampleDevice.session? 2 = some exampleSession2 ∧ (2 : Nat) ≠ 1 ∧
    (devops_close exampleDevice 1).1 = .ok () ∧
    (queues_alloc (devops_close exampleDevice 1).2 2
      (exampleSession1.owned.map QueueSet.toRequest)).1 = .ok exampleSession1.owned :=
  have h := close_frees_owned exampleDevice 1 2 exampleSession1 exampleSession2
    (by decide) (by decide) (by decide)
  ⟨by decide, by decide, by decide, h.1, h.2.2.2⟩

end Onload
